import Mathlib

/-!
# Provider configuration of the GitHub Terraform provider

A shallow embedding of `github/provider.go`: the provider schema table of
`Provider` and the configuration closure returned by `providerConfigure`.

Go values of type `interface{}` are embedded as the inductive `Value`; a type
assertion without the comma-ok form that fails is a run-time fault, recorded
with the source line at which it happens.  The two collaborators the closure
calls, `GenerateOAuthTokenFromApp` and `Config.Meta`, live in other files and
are parameters of the embedding (`Env`).  Every call to them is logged, so that
statements such as "the exchange is not called" are statements about the log.
-/

namespace Github

/-! ## Dynamic values -/

/-- A Go value of static type `interface{}` as the configuration layer hands
them over: the nil interface, strings, booleans, integers, slices and
string-keyed maps. -/
inductive Value where
  | nil
  | str (s : String)
  | bool (b : Bool)
  | int (i : Int)
  | list (xs : List Value)
  | map (kvs : List (String × Value))

/-- The comparison `v != nil` on an interface value, negated. -/
def Value.isNil : Value → Bool
  | .nil => true
  | _ => false

/-- Indexing `m[key]` of a `map[string]interface{}`: the stored value, or the
zero value of `interface{}`, which is nil, when the key is absent. -/
def mapIndex : List (String × Value) → String → Value
  | [], _ => .nil
  | (k, v) :: rest, key => if k = key then v else mapIndex rest key

/-- The guard `v, ok := x.(string); ok && v != ""`: the string when the
assertion succeeds and the string is not empty. -/
def nonEmptyString : Value → Option String
  | .str v => if v ≠ "" then some v else none
  | _ => none

/-- The `*schema.ResourceData` argument, seen through its only method used in
this file, `d.Get(key)`. -/
structure ResourceData where
  Get : String → Value

/-- A resource data whose `Get` reads an association list. -/
def ResourceData.ofList (kvs : List (String × Value)) : ResourceData :=
  ⟨mapIndex kvs⟩

/-! ## The schema table of `Provider` -/

/-- The `schema.ValueType` constants used by the provider schema. -/
inductive ValueType where
  | TypeString
  | TypeBool
  | TypeList
  deriving DecidableEq, Repr

/-- The fields of `schema.Schema` that the provider schema sets and that do
not depend on the process environment (`DefaultFunc`, `Description` and `Elem`
are left out; the element schema of `app_auth` is `appAuthElem`). -/
structure Schema where
  Type_ : ValueType
  Optional : Bool := false
  Required : Bool := false
  Sensitive : Bool := false
  MaxItems : Nat := 0
  ConflictsWith : List String := []
  deriving DecidableEq, Repr

/-- The `Schema` map of `Provider`, lines 11-72. -/
def ProviderSchema : List (String × Schema) :=
  [ ("token", { Type_ := .TypeString, Optional := true }),
    ("owner", { Type_ := .TypeString, Optional := true }),
    ("organization", { Type_ := .TypeString, Optional := true }),
    ("base_url", { Type_ := .TypeString, Optional := true }),
    ("insecure", { Type_ := .TypeBool, Optional := true }),
    ("app_auth", { Type_ := .TypeList, Optional := true, MaxItems := 1,
                   ConflictsWith := ["token"] }) ]

/-- The element schema of `app_auth`, lines 47-69. -/
def appAuthElem : List (String × Schema) :=
  [ ("id", { Type_ := .TypeString, Required := true }),
    ("installation_id", { Type_ := .TypeString, Required := true }),
    ("pem_file", { Type_ := .TypeString, Required := true, Sensitive := true }) ]

/-- Whether a dynamic value has the Go type the configuration layer uses for a
schema type: `string`, `bool`, and for a list of nested blocks a slice whose
elements are nil or string-keyed maps (of arbitrary values). -/
def Value.hasType : ValueType → Value → Bool
  | .TypeString, .str _ => true
  | .TypeBool, .bool _ => true
  | .TypeList, .list xs =>
      xs.all (fun x => match x with
        | .nil => true
        | .map _ => true
        | _ => false)
  | _, _ => false

/-- Every top-level key of the provider schema holds a value of its schema
type. -/
def SchemaTyped (d : ResourceData) : Prop :=
  ∀ p ∈ ProviderSchema, Value.hasType p.2.Type_ (d.Get p.1) = true

/-! ## Results, collaborators and the call log -/

/-- A Go `error` value, identified with its message. -/
structure GoError where
  msg : String
  deriving DecidableEq, Repr

/-- The call `fmt.Errorf(msg)` with a constant format string. -/
def Errorf (msg : String) : GoError := ⟨msg⟩

/-- The `Config` struct literal of lines 203-211. -/
structure Config where
  Token : String
  Organization : String
  BaseURL : String
  Insecure : Bool
  Owner : String
  Individual : Bool
  Anonymous : Bool
  deriving DecidableEq, Repr

/-- The `context.Context` returned by `p.StopContext()`, identified by a
number. -/
structure Context where
  id : Nat
  deriving DecidableEq, Repr

/-- Modelled from the spec: the `Owner` struct is declared outside provider.go,
which only assigns its `StopContext` field (the cancellation signal attached to
the identity context).  The fields this file never touches are carried along
as `rest`. -/
structure Owner where
  rest : Nat
  StopContext : Option Context
  deriving DecidableEq, Repr

/-- The `interface{}` that `Config.Meta` returns, as far as line 218 can tell
values apart: a non-nil `*Owner`, a nil `*Owner`, or anything else (the nil
interface or a value of another dynamic type). -/
inductive MetaValue where
  | owner (o : Owner)
  | nilOwner
  | other
  deriving DecidableEq, Repr

/-- The collaborators of `providerConfigure` that are defined in other files:
the token exchange, `Config.Meta`, and the stop context of the provider `p`.
A Go result pair `(x, err)` is a pair whose second component is `none` for
`err == nil`. -/
structure Env where
  GenerateOAuthTokenFromApp : String → String → String → String → String × Option GoError
  Meta : Config → MetaValue × Option GoError
  StopContext : Context

/-- One logged call to a collaborator, with its arguments. -/
inductive Call where
  | GenerateOAuthTokenFromApp (baseURL appID appInstallationID appPemFile : String)
  | Meta (config : Config)
  deriving DecidableEq, Repr

/-- How an invocation of the configure function ends: `return meta, nil`,
`return nil, err`, or a run-time fault at a source line. -/
inductive Outcome where
  | ok (meta : Owner)
  | err (e : GoError)
  | fault (line : Nat)
  deriving DecidableEq, Repr

/-- An invocation: its outcome and the calls it made, in order. -/
structure Run where
  result : Outcome
  calls : List Call
  deriving DecidableEq, Repr

/-- The configs passed to `Config.Meta` during a run, which are exactly the
`Config` values the run constructed. -/
def Run.configs (r : Run) : List Config :=
  r.calls.filterMap (fun c => match c with
    | .Meta config => some config
    | _ => none)

/-- The token exchanges performed during a run. -/
def Run.exchanges (r : Run) : List Call :=
  r.calls.filter (fun c => match c with
    | .GenerateOAuthTokenFromApp _ _ _ _ => true
    | _ => false)

/-! ## `providerConfigure` -/

/-- Line 157: `appAuth, ok := d.Get("app_auth").([]interface{});
ok && len(appAuth) > 0 && appAuth[0] != nil`; yields `appAuth[0]` when the
condition holds. -/
def appAuthSet : Value → Option Value
  | .list (first :: _) => if first.isNil then none else some first
  | _ => none

/-- Lines 158-185, the body of the `app_auth` branch: either the function
returns from inside the branch, or the branch ends with `token = appToken`. -/
def appAuthBlock (env : Env) (baseURL : String) (first : Value) :
    Except Run (String × List Call) :=
  match first with
  | .map appAuthAttr =>
    match nonEmptyString (mapIndex appAuthAttr "id") with
    | none =>
      .error ⟨.err (Errorf "app_auth.id must be set and contain a non-empty value"), []⟩
    | some appID =>
      match nonEmptyString (mapIndex appAuthAttr "installation_id") with
      | none =>
        .error ⟨.err (Errorf
          "app_auth.installation_id must be set and contain a non-empty value"), []⟩
      | some appInstallationID =>
        match nonEmptyString (mapIndex appAuthAttr "pem_file") with
        | none =>
          .error ⟨.err (Errorf
            "app_auth.pem_file must be set and contain a non-empty value"), []⟩
        | some appPemFile =>
          match (env.GenerateOAuthTokenFromApp baseURL appID appInstallationID appPemFile).2 with
          | some err =>
            .error ⟨.err err,
              [.GenerateOAuthTokenFromApp baseURL appID appInstallationID appPemFile]⟩
          | none =>
            .ok ((env.GenerateOAuthTokenFromApp baseURL appID appInstallationID appPemFile).1,
              [.GenerateOAuthTokenFromApp baseURL appID appInstallationID appPemFile])
  | _ => .error ⟨.fault 158, []⟩

/-- Lines 188-211: the flags, the owner and the `Config` literal.  A failing
type assertion yields its line. -/
def buildConfig (d : ResourceData) (baseURL token : String) : Except Nat Config :=
  let anonymous := if token ≠ "" then false else true
  match d.Get "organization" with
  | .str organization =>
    let individual := if organization ≠ "" then false else true
    match d.Get "owner" with
    | .str owner =>
      let owner := if !individual then organization else owner
      match d.Get "insecure" with
      | .bool insecure =>
        .ok { Token := token, Organization := organization, BaseURL := baseURL,
              Insecure := insecure, Owner := owner, Individual := individual,
              Anonymous := anonymous }
      | _ => .error 207
    | _ => .error 198
  | _ => .error 194

/-- Lines 188-220 for the token in force after the `app_auth` branch, with the
calls made so far. -/
def configureWith (env : Env) (d : ResourceData) (baseURL token : String)
    (calls : List Call) : Run :=
  match buildConfig d baseURL token with
  | .error line => ⟨.fault line, calls⟩
  | .ok config =>
    match (env.Meta config).2 with
    | some err => ⟨.err err, calls ++ [.Meta config]⟩
    | none =>
      match (env.Meta config).1 with
      | .owner o =>
        ⟨.ok { o with StopContext := some env.StopContext }, calls ++ [.Meta config]⟩
      | _ => ⟨.fault 218, calls ++ [.Meta config]⟩

/-- The closure returned by `providerConfigure(p)`, lines 153-221, applied to
`d`. -/
def providerConfigure (env : Env) (d : ResourceData) : Run :=
  match d.Get "base_url" with
  | .str baseURL =>
    match d.Get "token" with
    | .str token =>
      match appAuthSet (d.Get "app_auth") with
      | some first =>
        match appAuthBlock env baseURL first with
        | .error r => r
        | .ok (appToken, calls) => configureWith env d baseURL appToken calls
      | none => configureWith env d baseURL token []
    | _ => ⟨.fault 155, []⟩
  | _ => ⟨.fault 154, []⟩

/-! ## Schema-level exclusivity -/

/-- Whether a configuration value is set: it differs from the zero value of
its type. -/
def Value.isSet : Value → Bool
  | .nil => false
  | .str s => decide (s ≠ "")
  | .bool b => b
  | .int i => decide (i ≠ 0)
  | .list xs => !xs.isEmpty
  | .map kvs => !kvs.isEmpty

/-- Modelled from the spec: the enforcement of the schema rule `ConflictsWith`,
which the configuration-loading collaborator performs outside provider.go
("enforced schema-level mutual exclusivity between `token` and `appAuth`").
For the first key of the table that is set and lists, in its `ConflictsWith`, a
key that is set as well, the configuration is refused with an error naming
both keys. -/
def validateConflictsWith (schema : List (String × Schema)) (d : ResourceData) :
    Option GoError :=
  schema.findSome? (fun p =>
    if (d.Get p.1).isSet then
      (p.2.ConflictsWith.find? (fun c => (d.Get c).isSet)).map
        (fun c => Errorf (p.1 ++ ": conflicts with " ++ c))
    else none)

/-- Modelled from the spec: the configuration entry point as the host drives
it, which is outside provider.go: the schema table of `Provider` is enforced
first, and only a configuration that passes reaches the function returned by
`providerConfigure`; the first error is returned and nothing else runs. -/
def configure (env : Env) (d : ResourceData) : Run :=
  match validateConflictsWith ProviderSchema d with
  | some err => ⟨.err err, []⟩
  | none => providerConfigure env d

/-! ## Concrete inputs -/

/-- A schema-typed resource data with the given top-level values. -/
def mkData (baseURL token owner organization : String) (insecure : Bool)
    (appAuth : List Value) : ResourceData :=
  ResourceData.ofList
    [ ("base_url", .str baseURL), ("token", .str token), ("owner", .str owner),
      ("organization", .str organization), ("insecure", .bool insecure),
      ("app_auth", .list appAuth) ]

/-- An `app_auth` block with the three fields set to strings. -/
def appAuthOf (id installationID pemFile : String) : Value :=
  .map [("id", .str id), ("installation_id", .str installationID), ("pem_file", .str pemFile)]

/-- An environment whose exchange answers `exchange` and whose `Config.Meta`
returns an owner for every config. -/
def envOf (exchange : String × Option GoError) : Env where
  GenerateOAuthTokenFromApp := fun _ _ _ _ => exchange
  Meta := fun _ => (.owner ⟨0, none⟩, none)
  StopContext := ⟨7⟩

/-! ## Vocabulary of the statements -/

/-- The names of the three `app_auth` fields, in schema order. -/
def appAuthFields : List String := appAuthElem.map Prod.fst

/-- The error of lines 165, 171 and 177 for the field `field`. -/
def fieldError (field : String) : GoError :=
  Errorf ("app_auth." ++ field ++ " must be set and contain a non-empty value")

/-- A field of an `app_auth` block is missing, is not a string, or is the
empty string. -/
def FieldUnset (attr : List (String × Value)) (key : String) : Prop :=
  (∀ v, (key, v) ∉ attr) ∨ (∀ s, mapIndex attr key ≠ .str s) ∨ mapIndex attr key = .str ""

/-- A field of an `app_auth` block holds the non-empty string `s`. -/
def FieldSet (attr : List (String × Value)) (key s : String) : Prop :=
  mapIndex attr key = .str s ∧ s ≠ ""

/-- The `app_auth` list is empty or its first element is nil. -/
def AppAuthNotSet (v : Value) : Prop :=
  v = .list [] ∨ ∃ rest, v = .list (.nil :: rest)

/-- The contract of `Config.Meta` that line 218 relies on: with a nil error it
returns a non-nil `*Owner`. -/
def MetaReturnsOwner (env : Env) : Prop :=
  ∀ config, (env.Meta config).2 = none → ∃ o, (env.Meta config).1 = .owner o

/-- The two ways in which a run reaches the `Config` literal. -/
def ReachesConfig (env : Env) (d : ResourceData) (baseURL token : String) (calls : List Call) :
    Prop :=
  (d.Get "token" = .str token ∧ appAuthSet (d.Get "app_auth") = none ∧ calls = []) ∨
  (∃ attr rest appID appInstallationID appPemFile,
    d.Get "app_auth" = .list (.map attr :: rest) ∧
    FieldSet attr "id" appID ∧ FieldSet attr "installation_id" appInstallationID ∧
    FieldSet attr "pem_file" appPemFile ∧
    env.GenerateOAuthTokenFromApp baseURL appID appInstallationID appPemFile = (token, none) ∧
    calls = [.GenerateOAuthTokenFromApp baseURL appID appInstallationID appPemFile])

/-! ## Auxiliary lemmas -/

theorem mapIndex_of_absent (attr : List (String × Value)) (key : String)
    (h : ∀ v, (key, v) ∉ attr) : mapIndex attr key = .nil := by
  induction attr with
  | nil => rfl
  | cons kv rest ih =>
    obtain ⟨k, v⟩ := kv
    have hk : k ≠ key := by
      intro hk
      exact h v (by simp [hk])
    have hrest : ∀ w, (key, w) ∉ rest := fun w hw => h w (List.mem_cons_of_mem _ hw)
    simp [mapIndex, hk, ih hrest]

theorem nonEmptyString_eq_some (v : Value) (s : String) :
    nonEmptyString v = some s ↔ v = .str s ∧ s ≠ "" := by
  cases v <;> simp [nonEmptyString]
  rename_i t
  constructor
  · rintro ⟨h1, h2⟩
    subst h2
    exact ⟨rfl, h1⟩
  · rintro ⟨h1, h2⟩
    subst h1
    exact ⟨h2, rfl⟩

theorem nonEmptyString_eq_none (v : Value) :
    nonEmptyString v = none ↔ (∀ s, v ≠ .str s) ∨ v = .str "" := by
  cases v <;> simp [nonEmptyString]

theorem fieldUnset_iff (attr : List (String × Value)) (key : String) :
    FieldUnset attr key ↔ nonEmptyString (mapIndex attr key) = none := by
  rw [nonEmptyString_eq_none]
  constructor
  · rintro (h | h | h)
    · left
      intro s
      simp [mapIndex_of_absent attr key h]
    · exact Or.inl h
    · exact Or.inr h
  · rintro (h | h)
    · exact Or.inr (Or.inl h)
    · exact Or.inr (Or.inr h)

theorem fieldSet_iff (attr : List (String × Value)) (key s : String) :
    FieldSet attr key s ↔ nonEmptyString (mapIndex attr key) = some s := by
  rw [nonEmptyString_eq_some]
  rfl

theorem fieldUnset_or_fieldSet (attr : List (String × Value)) (key : String) :
    FieldUnset attr key ∨ ∃ s, FieldSet attr key s := by
  cases h : nonEmptyString (mapIndex attr key) with
  | none => exact Or.inl ((fieldUnset_iff attr key).2 h)
  | some s => exact Or.inr ⟨s, (fieldSet_iff attr key s).2 h⟩

theorem not_fieldUnset_of_fieldSet {attr : List (String × Value)} {key s : String}
    (h : FieldSet attr key s) : ¬ FieldUnset attr key := by
  rw [fieldUnset_iff, (fieldSet_iff attr key s).1 h]
  simp

theorem hasType_string (v : Value) :
    Value.hasType .TypeString v = true ↔ ∃ s, v = .str s := by
  cases v <;> simp [Value.hasType]

theorem hasType_bool (v : Value) :
    Value.hasType .TypeBool v = true ↔ ∃ b, v = .bool b := by
  cases v <;> simp [Value.hasType]

theorem hasType_list (v : Value) :
    Value.hasType .TypeList v = true ↔
      ∃ xs, v = .list xs ∧ ∀ x ∈ xs, x = .nil ∨ ∃ kvs, x = .map kvs := by
  cases v <;> simp [Value.hasType]
  rename_i xs
  constructor
  · intro h x hx
    have := h x hx
    cases x <;> simp_all
  · intro h x hx
    rcases h x hx with h1 | ⟨kvs, h1⟩ <;> subst h1 <;> rfl

theorem schemaTyped_iff (d : ResourceData) :
    SchemaTyped d ↔
      ∃ baseURL token owner organization insecure appAuth,
        d.Get "base_url" = .str baseURL ∧ d.Get "token" = .str token ∧
        d.Get "owner" = .str owner ∧ d.Get "organization" = .str organization ∧
        d.Get "insecure" = .bool insecure ∧ d.Get "app_auth" = .list appAuth ∧
        ∀ x ∈ appAuth, x = .nil ∨ ∃ kvs, x = .map kvs := by
  simp only [SchemaTyped, ProviderSchema, List.forall_mem_cons, List.not_mem_nil,
    hasType_string, hasType_bool, hasType_list]
  constructor
  · rintro ⟨⟨t, ht⟩, ⟨o, ho⟩, ⟨g, hg⟩, ⟨b, hb⟩, ⟨i, hi⟩, ⟨xs, hxs, hall⟩, -⟩
    exact ⟨b, t, o, g, i, xs, hb, ht, ho, hg, hi, hxs, hall⟩
  · rintro ⟨b, t, o, g, i, xs, hb, ht, ho, hg, hi, hxs, hall⟩
    exact ⟨⟨t, ht⟩, ⟨o, ho⟩, ⟨g, hg⟩, ⟨b, hb⟩, ⟨i, hi⟩, ⟨xs, hxs, hall⟩, by simp⟩

theorem schemaTyped_mkData (baseURL token owner organization : String) (insecure : Bool)
    (appAuth : List Value) (h : ∀ x ∈ appAuth, x = .nil ∨ ∃ kvs, x = .map kvs) :
    SchemaTyped (mkData baseURL token owner organization insecure appAuth) := by
  rw [schemaTyped_iff]
  exact ⟨baseURL, token, owner, organization, insecure, appAuth, rfl, rfl, rfl, rfl, rfl, rfl, h⟩

/-! ### The shape of a run -/

theorem buildConfig_of_typed (d : ResourceData) (baseURL token owner organization : String)
    (insecure : Bool) (ho : d.Get "owner" = .str owner)
    (hg : d.Get "organization" = .str organization) (hi : d.Get "insecure" = .bool insecure) :
    buildConfig d baseURL token = .ok
      { Token := token, Organization := organization, BaseURL := baseURL, Insecure := insecure,
        Owner := if organization ≠ "" then organization else owner,
        Individual := if organization ≠ "" then false else true,
        Anonymous := if token ≠ "" then false else true } := by
  simp only [buildConfig, ho, hg, hi]
  by_cases h : organization = "" <;> simp [h]

theorem buildConfig_ok_inv (d : ResourceData) (baseURL token : String) (config : Config)
    (h : buildConfig d baseURL token = .ok config) :
    ∃ owner organization insecure,
      d.Get "owner" = .str owner ∧ d.Get "organization" = .str organization ∧
      d.Get "insecure" = .bool insecure ∧
      config =
        { Token := token, Organization := organization, BaseURL := baseURL,
          Insecure := insecure,
          Owner := if organization ≠ "" then organization else owner,
          Individual := if organization ≠ "" then false else true,
          Anonymous := if token ≠ "" then false else true } := by
  cases hg : d.Get "organization" with
  | str organization =>
    cases ho : d.Get "owner" with
    | str owner =>
      cases hi : d.Get "insecure" with
      | bool insecure =>
        rw [buildConfig_of_typed d baseURL token owner organization insecure ho hg hi] at h
        exact ⟨owner, organization, insecure, rfl, rfl, rfl, (Except.ok.inj h).symm⟩
      | _ => simp [buildConfig, hg, ho, hi] at h
    | _ => simp [buildConfig, hg, ho] at h
  | _ => simp [buildConfig, hg] at h

theorem configureWith_calls_of_ok (env : Env) (d : ResourceData) (baseURL token : String)
    (calls : List Call) (config : Config) (h : buildConfig d baseURL token = .ok config) :
    (configureWith env d baseURL token calls).calls = calls ++ [.Meta config] := by
  unfold configureWith
  rw [h]
  dsimp only
  split
  · rfl
  · split <;> rfl

theorem configureWith_of_error (env : Env) (d : ResourceData) (baseURL token : String)
    (calls : List Call) (line : Nat) (h : buildConfig d baseURL token = .error line) :
    configureWith env d baseURL token calls = ⟨.fault line, calls⟩ := by
  unfold configureWith
  rw [h]

theorem configureWith_result_of_ok (env : Env) (d : ResourceData) (baseURL token : String)
    (calls : List Call) (config : Config) (h : buildConfig d baseURL token = .ok config) :
    (configureWith env d baseURL token calls).result =
      match (env.Meta config).2 with
      | some err => .err err
      | none =>
        match (env.Meta config).1 with
        | .owner o => .ok { o with StopContext := some env.StopContext }
        | _ => .fault 218 := by
  unfold configureWith
  rw [h]
  dsimp only
  split
  · rfl
  · split <;> rfl

theorem appAuthSet_of_notSet (v : Value) (h : AppAuthNotSet v) : appAuthSet v = none := by
  rcases h with h | ⟨rest, h⟩ <;> subst h <;> rfl

theorem appAuthSet_eq_some_inv (v first : Value) (h : appAuthSet v = some first) :
    ∃ rest, v = .list (first :: rest) ∧ first.isNil = false := by
  cases v with
  | list xs =>
    cases xs with
    | nil => simp [appAuthSet] at h
    | cons x rest =>
      cases hx : x.isNil <;> simp [appAuthSet, hx] at h
      subst h
      exact ⟨rest, rfl, hx⟩
  | _ => simp [appAuthSet] at h

theorem appAuthBlock_unset_id (env : Env) (baseURL : String) (attr : List (String × Value))
    (h : FieldUnset attr "id") :
    appAuthBlock env baseURL (.map attr) = .error ⟨.err (fieldError "id"), []⟩ := by
  rw [fieldUnset_iff] at h
  simp only [appAuthBlock, h]
  rfl

theorem appAuthBlock_unset_installation_id (env : Env) (baseURL appID : String)
    (attr : List (String × Value)) (h1 : FieldSet attr "id" appID)
    (h : FieldUnset attr "installation_id") :
    appAuthBlock env baseURL (.map attr) =
      .error ⟨.err (fieldError "installation_id"), []⟩ := by
  rw [fieldUnset_iff] at h
  rw [fieldSet_iff] at h1
  simp only [appAuthBlock, h, h1]
  rfl

theorem appAuthBlock_unset_pem_file (env : Env) (baseURL appID appInstallationID : String)
    (attr : List (String × Value)) (h1 : FieldSet attr "id" appID)
    (h2 : FieldSet attr "installation_id" appInstallationID)
    (h : FieldUnset attr "pem_file") :
    appAuthBlock env baseURL (.map attr) = .error ⟨.err (fieldError "pem_file"), []⟩ := by
  rw [fieldUnset_iff] at h
  rw [fieldSet_iff] at h1 h2
  simp only [appAuthBlock, h, h1, h2]
  rfl

theorem appAuthBlock_exchange_error (env : Env) (baseURL appID appInstallationID appPemFile : String)
    (attr : List (String × Value)) (e : GoError) (h1 : FieldSet attr "id" appID)
    (h2 : FieldSet attr "installation_id" appInstallationID)
    (h3 : FieldSet attr "pem_file" appPemFile)
    (he : (env.GenerateOAuthTokenFromApp baseURL appID appInstallationID appPemFile).2 = some e) :
    appAuthBlock env baseURL (.map attr) =
      .error ⟨.err e, [.GenerateOAuthTokenFromApp baseURL appID appInstallationID appPemFile]⟩ := by
  rw [fieldSet_iff] at h1 h2 h3
  simp only [appAuthBlock, h1, h2, h3, he]

theorem appAuthBlock_exchange_ok (env : Env) (baseURL appID appInstallationID appPemFile : String)
    (attr : List (String × Value)) (h1 : FieldSet attr "id" appID)
    (h2 : FieldSet attr "installation_id" appInstallationID)
    (h3 : FieldSet attr "pem_file" appPemFile)
    (he : (env.GenerateOAuthTokenFromApp baseURL appID appInstallationID appPemFile).2 = none) :
    appAuthBlock env baseURL (.map attr) =
      .ok ((env.GenerateOAuthTokenFromApp baseURL appID appInstallationID appPemFile).1,
        [.GenerateOAuthTokenFromApp baseURL appID appInstallationID appPemFile]) := by
  rw [fieldSet_iff] at h1 h2 h3
  simp only [appAuthBlock, h1, h2, h3, he]

theorem providerConfigure_static (env : Env) (d : ResourceData) (baseURL token : String)
    (hb : d.Get "base_url" = .str baseURL) (ht : d.Get "token" = .str token)
    (ha : appAuthSet (d.Get "app_auth") = none) :
    providerConfigure env d = configureWith env d baseURL token [] := by
  simp only [providerConfigure, hb, ht, ha]

theorem providerConfigure_appAuth (env : Env) (d : ResourceData) (baseURL token : String)
    (first : Value) (hb : d.Get "base_url" = .str baseURL) (ht : d.Get "token" = .str token)
    (ha : appAuthSet (d.Get "app_auth") = some first) :
    providerConfigure env d =
      match appAuthBlock env baseURL first with
      | .error r => r
      | .ok (appToken, calls) => configureWith env d baseURL appToken calls := by
  simp only [providerConfigure, hb, ht, ha]

/-- Every way through the `app_auth` branch for a block that is a map. -/
theorem appAuthBlock_cases (env : Env) (baseURL : String) (attr : List (String × Value)) :
    (FieldUnset attr "id" ∧
      appAuthBlock env baseURL (.map attr) = .error ⟨.err (fieldError "id"), []⟩) ∨
    (FieldUnset attr "installation_id" ∧ (∃ appID, FieldSet attr "id" appID) ∧
      appAuthBlock env baseURL (.map attr) =
        .error ⟨.err (fieldError "installation_id"), []⟩) ∨
    (FieldUnset attr "pem_file" ∧ (∃ appID, FieldSet attr "id" appID) ∧
      (∃ appInstallationID, FieldSet attr "installation_id" appInstallationID) ∧
      appAuthBlock env baseURL (.map attr) = .error ⟨.err (fieldError "pem_file"), []⟩) ∨
    (∃ appID appInstallationID appPemFile,
      FieldSet attr "id" appID ∧ FieldSet attr "installation_id" appInstallationID ∧
      FieldSet attr "pem_file" appPemFile ∧
      ((∃ e, (env.GenerateOAuthTokenFromApp baseURL appID appInstallationID appPemFile).2 = some e ∧
          appAuthBlock env baseURL (.map attr) = .error ⟨.err e,
            [.GenerateOAuthTokenFromApp baseURL appID appInstallationID appPemFile]⟩) ∨
       ((env.GenerateOAuthTokenFromApp baseURL appID appInstallationID appPemFile).2 = none ∧
          appAuthBlock env baseURL (.map attr) =
            .ok ((env.GenerateOAuthTokenFromApp baseURL appID appInstallationID appPemFile).1,
              [.GenerateOAuthTokenFromApp baseURL appID appInstallationID appPemFile])))) := by
  rcases fieldUnset_or_fieldSet attr "id" with h1 | ⟨appID, h1⟩
  · exact Or.inl ⟨h1, appAuthBlock_unset_id env baseURL attr h1⟩
  rcases fieldUnset_or_fieldSet attr "installation_id" with h2 | ⟨appInstallationID, h2⟩
  · exact Or.inr (Or.inl ⟨h2, ⟨appID, h1⟩,
      appAuthBlock_unset_installation_id env baseURL appID attr h1 h2⟩)
  rcases fieldUnset_or_fieldSet attr "pem_file" with h3 | ⟨appPemFile, h3⟩
  · exact Or.inr (Or.inr (Or.inl ⟨h3, ⟨appID, h1⟩, ⟨appInstallationID, h2⟩,
      appAuthBlock_unset_pem_file env baseURL appID appInstallationID attr h1 h2 h3⟩))
  refine Or.inr (Or.inr (Or.inr ⟨appID, appInstallationID, appPemFile, h1, h2, h3, ?_⟩))
  cases he : (env.GenerateOAuthTokenFromApp baseURL appID appInstallationID appPemFile).2 with
  | some e =>
    exact Or.inl ⟨e, rfl, appAuthBlock_exchange_error env baseURL appID appInstallationID
      appPemFile attr e h1 h2 h3 he⟩
  | none =>
    exact Or.inr ⟨rfl, appAuthBlock_exchange_ok env baseURL appID appInstallationID
      appPemFile attr h1 h2 h3 he⟩

/-- A run either ends before line 188 without having constructed a config and
without success, or it is `configureWith` on one of the two paths. -/
theorem providerConfigure_shape (env : Env) (d : ResourceData) :
    ((providerConfigure env d).configs = [] ∧ ∀ meta, (providerConfigure env d).result ≠ .ok meta) ∨
    (∃ baseURL token calls, d.Get "base_url" = .str baseURL ∧
      ReachesConfig env d baseURL token calls ∧
      providerConfigure env d = configureWith env d baseURL token calls) := by
  cases hb : d.Get "base_url" with
  | str baseURL =>
    cases ht : d.Get "token" with
    | str token =>
      cases ha : appAuthSet (d.Get "app_auth") with
      | none =>
        exact Or.inr ⟨baseURL, token, [], rfl, Or.inl ⟨ht, ha, rfl⟩,
          providerConfigure_static env d baseURL token hb ht ha⟩
      | some first =>
        rw [providerConfigure_appAuth env d baseURL token first hb ht ha]
        obtain ⟨rest, hlist, -⟩ := appAuthSet_eq_some_inv _ _ ha
        cases first with
        | map attr =>
          rcases appAuthBlock_cases env baseURL attr with
            ⟨-, h⟩ | ⟨-, -, h⟩ | ⟨-, -, -, h⟩ | ⟨i, n, f, h1, h2, h3, ⟨e, -, h⟩ | ⟨he, h⟩⟩
          · rw [h]; exact Or.inl ⟨rfl, by simp⟩
          · rw [h]; exact Or.inl ⟨rfl, by simp⟩
          · rw [h]; exact Or.inl ⟨rfl, by simp⟩
          · rw [h]; exact Or.inl ⟨rfl, by simp⟩
          · rw [h]
            exact Or.inr ⟨baseURL, _, _, rfl,
              Or.inr ⟨attr, rest, i, n, f, hlist, h1, h2, h3, Prod.ext rfl he, rfl⟩, rfl⟩
        | _ => exact Or.inl ⟨rfl, by simp [appAuthBlock]⟩
    | _ => simp [providerConfigure, hb, ht, Run.configs]
  | _ => simp [providerConfigure, hb, Run.configs]

theorem configs_of_reachesConfig (env : Env) (d : ResourceData) (baseURL token : String)
    (calls : List Call) (config : Config) (r : Outcome)
    (h : ReachesConfig env d baseURL token calls) :
    Run.configs ⟨r, calls ++ [.Meta config]⟩ = [config] ∧
    Run.exchanges ⟨r, calls ++ [.Meta config]⟩ = calls := by
  rcases h with ⟨-, -, h⟩ | ⟨_, _, _, _, _, -, -, -, -, -, h⟩ <;> subst h <;>
    simp [Run.configs, Run.exchanges]

theorem mem_configs_inv (env : Env) (d : ResourceData) (config : Config)
    (h : config ∈ (providerConfigure env d).configs) :
    ∃ baseURL token calls, d.Get "base_url" = .str baseURL ∧
      ReachesConfig env d baseURL token calls ∧
      buildConfig d baseURL token = .ok config ∧
      (providerConfigure env d).calls = calls ++ [.Meta config] := by
  rcases providerConfigure_shape env d with ⟨h0, -⟩ | ⟨baseURL, token, calls, hb, hr, hrun⟩
  · rw [h0] at h
    simp at h
  · cases hc : buildConfig d baseURL token with
    | error line =>
      rw [hrun, configureWith_of_error env d baseURL token calls line hc] at h
      rcases hr with ⟨-, -, hr⟩ | ⟨_, _, _, _, _, -, -, -, -, -, hr⟩ <;> subst hr <;>
        simp [Run.configs] at h
    | ok config0 =>
      have hcalls := configureWith_calls_of_ok env d baseURL token calls config0 hc
      rw [← hrun] at hcalls
      have hcfg := (configs_of_reachesConfig env d baseURL token calls config0
        (providerConfigure env d).result hr).1
      rw [← hcalls] at hcfg
      rw [hcfg] at h
      simp only [List.mem_singleton] at h
      subst h
      exact ⟨baseURL, token, calls, hb, hr, hc, hcalls⟩

theorem ok_inv (env : Env) (d : ResourceData) (meta : Owner)
    (h : (providerConfigure env d).result = .ok meta) :
    ∃ baseURL token calls config o, d.Get "base_url" = .str baseURL ∧
      ReachesConfig env d baseURL token calls ∧
      buildConfig d baseURL token = .ok config ∧
      (providerConfigure env d).calls = calls ++ [.Meta config] ∧
      env.Meta config = (.owner o, none) ∧
      meta = { o with StopContext := some env.StopContext } := by
  rcases providerConfigure_shape env d with ⟨-, h0⟩ | ⟨baseURL, token, calls, hb, hr, hrun⟩
  · exact absurd h (h0 meta)
  · cases hc : buildConfig d baseURL token with
    | error line =>
      rw [hrun, configureWith_of_error env d baseURL token calls line hc] at h
      simp at h
    | ok config =>
      have hcalls := configureWith_calls_of_ok env d baseURL token calls config hc
      rw [← hrun] at hcalls
      have hres := configureWith_result_of_ok env d baseURL token calls config hc
      rw [← hrun, h] at hres
      cases h2 : (env.Meta config).2 with
      | some e => simp [h2] at hres
      | none =>
        cases h1 : (env.Meta config).1 with
        | owner o =>
          simp only [h1, h2, Outcome.ok.injEq] at hres
          exact ⟨baseURL, token, calls, config, o, hb, hr, hc, hcalls, Prod.ext h1 h2, hres⟩
        | _ => simp [h1, h2] at hres

theorem configureWith_result_cases (env : Env) (d : ResourceData) (baseURL token : String)
    (calls : List Call) (config : Config) (hc : buildConfig d baseURL token = .ok config) :
    (∃ e, (env.Meta config).2 = some e ∧
      (configureWith env d baseURL token calls).result = .err e) ∨
    (∃ o, env.Meta config = (.owner o, none) ∧
      (configureWith env d baseURL token calls).result =
        .ok { o with StopContext := some env.StopContext }) ∨
    ((env.Meta config).2 = none ∧ (∀ o, (env.Meta config).1 ≠ .owner o) ∧
      (configureWith env d baseURL token calls).result = .fault 218) := by
  rw [configureWith_result_of_ok env d baseURL token calls config hc]
  cases h2 : (env.Meta config).2 with
  | some e => exact Or.inl ⟨e, rfl, rfl⟩
  | none =>
    cases h1 : (env.Meta config).1 with
    | owner o => exact Or.inr (Or.inl ⟨o, Prod.ext h1 h2, rfl⟩)
    | nilOwner => exact Or.inr (Or.inr ⟨rfl, by simp, rfl⟩)
    | other => exact Or.inr (Or.inr ⟨rfl, by simp, rfl⟩)

theorem field_error_of_unset (env : Env) (d : ResourceData) (baseURL token : String)
    (attr : List (String × Value)) (rest : List Value)
    (hb : d.Get "base_url" = .str baseURL) (ht : d.Get "token" = .str token)
    (ha : d.Get "app_auth" = .list (.map attr :: rest))
    (hbad : ∃ field ∈ appAuthFields, FieldUnset attr field) :
    ∃ field ∈ appAuthFields, FieldUnset attr field ∧
      providerConfigure env d = ⟨.err (fieldError field), []⟩ := by
  have hset : appAuthSet (d.Get "app_auth") = some (.map attr) := by rw [ha]; rfl
  rw [providerConfigure_appAuth env d baseURL token _ hb ht hset]
  rcases appAuthBlock_cases env baseURL attr with
    ⟨hu, h⟩ | ⟨hu, -, h⟩ | ⟨hu, -, -, h⟩ | ⟨i, n, f, h1, h2, h3, -⟩
  · exact ⟨"id", by simp [appAuthFields, appAuthElem], hu, by rw [h]⟩
  · exact ⟨"installation_id", by simp [appAuthFields, appAuthElem], hu, by rw [h]⟩
  · exact ⟨"pem_file", by simp [appAuthFields, appAuthElem], hu, by rw [h]⟩
  · exfalso
    obtain ⟨field, hmem, hu⟩ := hbad
    simp only [appAuthFields, appAuthElem, List.map_cons, List.map_nil, List.mem_cons,
      List.mem_singleton, List.not_mem_nil, or_false] at hmem
    rcases hmem with rfl | rfl | rfl
    · exact not_fieldUnset_of_fieldSet h1 hu
    · exact not_fieldUnset_of_fieldSet h2 hu
    · exact not_fieldUnset_of_fieldSet h3 hu

/-- On a schema-typed input a run either returns an error before line 188 or is
`configureWith` with a config that builds. -/
theorem schemaTyped_run (env : Env) (d : ResourceData) (hd : SchemaTyped d) :
    (∃ e, (providerConfigure env d).result = .err e) ∨
    (∃ baseURL token calls config, buildConfig d baseURL token = .ok config ∧
      providerConfigure env d = configureWith env d baseURL token calls) := by
  obtain ⟨baseURL, token, owner, organization, insecure, appAuth, hb, ht, ho, hg, hi, happ,
    hall⟩ := (schemaTyped_iff d).1 hd
  cases hset : appAuthSet (d.Get "app_auth") with
  | none =>
    exact Or.inr ⟨baseURL, token, [], _,
      buildConfig_of_typed d baseURL token owner organization insecure ho hg hi,
      providerConfigure_static env d baseURL token hb ht hset⟩
  | some first =>
    obtain ⟨rest, hlist, hnil⟩ := appAuthSet_eq_some_inv _ _ hset
    rw [happ] at hlist
    have hmem : first ∈ appAuth := by
      rw [Value.list.inj hlist]
      exact List.mem_cons_self _ _
    rw [providerConfigure_appAuth env d baseURL token first hb ht hset]
    rcases hall first hmem with h | ⟨attr, h⟩
    · subst h
      simp [Value.isNil] at hnil
    · subst h
      rcases appAuthBlock_cases env baseURL attr with
        ⟨-, h⟩ | ⟨-, -, h⟩ | ⟨-, -, -, h⟩ | ⟨i, n, f, -, -, -, ⟨e, -, h⟩ | ⟨-, h⟩⟩
      · rw [h]; exact Or.inl ⟨_, rfl⟩
      · rw [h]; exact Or.inl ⟨_, rfl⟩
      · rw [h]; exact Or.inl ⟨_, rfl⟩
      · rw [h]; exact Or.inl ⟨_, rfl⟩
      · rw [h]
        exact Or.inr ⟨baseURL, _, _, _,
          buildConfig_of_typed d baseURL _ owner organization insecure ho hg hi, rfl⟩

/-! ## The claims -/

/-- C1: when `app_auth` is present (a non-empty list whose first element is a
block) and at least one of the fields `id`, `installation_id`, `pem_file` is
missing, not a string or the empty string, the run returns a nil result with
the error "app_auth.<field> must be set and contain a non-empty value" for one
of the unset fields, and it makes no call at all, so in particular
`GenerateOAuthTokenFromApp` is not called. -/
theorem missing_field_is_reported (env : Env) (d : ResourceData) (baseURL token : String)
    (attr : List (String × Value)) (rest : List Value)
    (hb : d.Get "base_url" = .str baseURL) (ht : d.Get "token" = .str token)
    (ha : d.Get "app_auth" = .list (.map attr :: rest))
    (hbad : ∃ field ∈ appAuthFields, FieldUnset attr field) :
    ∃ field ∈ appAuthFields, FieldUnset attr field ∧
      providerConfigure env d = ⟨.err (fieldError field), []⟩ ∧
      (fieldError field).msg =
        "app_auth." ++ field ++ " must be set and contain a non-empty value" ∧
      (providerConfigure env d).exchanges = [] := by
  have hset : appAuthSet (d.Get "app_auth") = some (.map attr) := by rw [ha]; rfl
  rw [providerConfigure_appAuth env d baseURL token _ hb ht hset]
  rcases appAuthBlock_cases env baseURL attr with
    ⟨hu, h⟩ | ⟨hu, -, h⟩ | ⟨hu, -, -, h⟩ | ⟨i, n, f, h1, h2, h3, -⟩
  · exact ⟨"id", by simp [appAuthFields, appAuthElem], hu, by rw [h], rfl, by rw [h]; rfl⟩
  · exact ⟨"installation_id", by simp [appAuthFields, appAuthElem], hu, by rw [h], rfl,
      by rw [h]; rfl⟩
  · exact ⟨"pem_file", by simp [appAuthFields, appAuthElem], hu, by rw [h], rfl, by rw [h]; rfl⟩
  · exfalso
    obtain ⟨field, hmem, hu⟩ := hbad
    simp only [appAuthFields, appAuthElem, List.map_cons, List.map_nil, List.mem_cons,
      List.mem_singleton, List.not_mem_nil, or_false] at hmem
    rcases hmem with rfl | rfl | rfl
    · exact not_fieldUnset_of_fieldSet h1 hu
    · exact not_fieldUnset_of_fieldSet h2 hu
    · exact not_fieldUnset_of_fieldSet h3 hu

/-- Scenario C: `id = "1"`, `installation_id = "2"`, `pem_file = ""` fails
naming `pem_file`, with no exchange call. -/
theorem missing_field_is_reported_witness :
    providerConfigure (envOf ("t", none))
        (mkData "https://api.github.com/" "" "" "" false [appAuthOf "1" "2" ""]) =
      ⟨.err ⟨"app_auth.pem_file must be set and contain a non-empty value"⟩, []⟩ ∧
    ∃ field ∈ appAuthFields, FieldUnset [("id", .str "1"), ("installation_id", .str "2"),
        ("pem_file", .str "")] field ∧
      providerConfigure (envOf ("t", none))
          (mkData "https://api.github.com/" "" "" "" false [appAuthOf "1" "2" ""]) =
        ⟨.err (fieldError field), []⟩ ∧
      (fieldError field).msg =
        "app_auth." ++ field ++ " must be set and contain a non-empty value" ∧
      (providerConfigure (envOf ("t", none))
          (mkData "https://api.github.com/" "" "" "" false
            [appAuthOf "1" "2" ""])).exchanges = [] :=
  ⟨by decide,
   missing_field_is_reported (envOf ("t", none))
    (mkData "https://api.github.com/" "" "" "" false [appAuthOf "1" "2" ""])
    "https://api.github.com/" "" _ [] rfl rfl rfl
    ⟨"pem_file", by decide, Or.inr (Or.inr rfl)⟩⟩

/-- C2: on every input on which the run succeeds and whose `organization` is
a non-empty string, exactly one `Config` is constructed, and it has `Owner`
equal to `organization` and `Individual` false, whatever `owner` holds. -/
theorem organization_takes_precedence (env : Env) (d : ResourceData) (organization : String)
    (meta : Owner) (hok : (providerConfigure env d).result = .ok meta)
    (hg : d.Get "organization" = .str organization) (hne : organization ≠ "") :
    ∃ config, (providerConfigure env d).configs = [config] ∧
      config.Owner = organization ∧ config.Individual = false := by
  obtain ⟨baseURL, token, calls, config, o, -, hr, hc, hcalls, -, -⟩ := ok_inv env d meta hok
  obtain ⟨owner, organization0, insecure, -, hg0, -, hcfg⟩ :=
    buildConfig_ok_inv d baseURL token config hc
  have horg : organization0 = organization := by
    rw [hg] at hg0
    exact (Value.str.inj hg0).symm
  subst horg
  refine ⟨config, ?_, ?_, ?_⟩
  · have := (configs_of_reachesConfig env d baseURL token calls config
      (providerConfigure env d).result hr).1
    rwa [← hcalls] at this
  · rw [hcfg]; simp [hne]
  · rw [hcfg]; simp [hne]

/-- An organization and a different owner: the organization is the owner of
the constructed config. -/
theorem organization_takes_precedence_witness :
    (providerConfigure (envOf ("t", none))
        (mkData "https://api.github.com/" "abc" "alice" "acme" false [])).result =
      .ok ⟨0, some ⟨7⟩⟩ ∧
    ∃ config, (providerConfigure (envOf ("t", none))
        (mkData "https://api.github.com/" "abc" "alice" "acme" false [])).configs = [config] ∧
      config.Owner = "acme" ∧ config.Individual = false :=
  ⟨by decide,
   organization_takes_precedence (envOf ("t", none))
    (mkData "https://api.github.com/" "abc" "alice" "acme" false []) "acme" ⟨0, some ⟨7⟩⟩
    (by decide) rfl (by decide)⟩

/-- C3: on every input on which the run succeeds, whose `organization` is the
empty string and whose `owner` is a non-empty string, exactly one `Config` is
constructed, and it has `Owner` equal to `owner` and `Individual` true. -/
theorem owner_used_without_organization (env : Env) (d : ResourceData) (owner : String)
    (meta : Owner) (hok : (providerConfigure env d).result = .ok meta)
    (hg : d.Get "organization" = .str "") (ho : d.Get "owner" = .str owner)
    (hne : owner ≠ "") :
    ∃ config, (providerConfigure env d).configs = [config] ∧
      config.Owner = owner ∧ config.Individual = true := by
  obtain ⟨baseURL, token, calls, config, o, -, hr, hc, hcalls, -, -⟩ := ok_inv env d meta hok
  obtain ⟨owner0, organization0, insecure, ho0, hg0, -, hcfg⟩ :=
    buildConfig_ok_inv d baseURL token config hc
  have horg : organization0 = "" := by
    rw [hg] at hg0
    exact (Value.str.inj hg0).symm
  have hown : owner0 = owner := by
    rw [ho] at ho0
    exact (Value.str.inj ho0).symm
  subst horg hown
  refine ⟨config, ?_, ?_, ?_⟩
  · have := (configs_of_reachesConfig env d baseURL token calls config
      (providerConfigure env d).result hr).1
    rwa [← hcalls] at this
  · rw [hcfg]; simp
  · rw [hcfg]; simp

/-- Scenario A: `token = "abc"`, `organization = ""`, `owner = "alice"` yields
Token "abc", Owner "alice", Individual true, Anonymous false. -/
theorem owner_used_without_organization_witness :
    (providerConfigure (envOf ("t", none))
        (mkData "https://api.github.com/" "abc" "alice" "" false [])).configs =
      [{ Token := "abc", Organization := "", BaseURL := "https://api.github.com/",
         Insecure := false, Owner := "alice", Individual := true, Anonymous := false }] ∧
    ∃ config, (providerConfigure (envOf ("t", none))
        (mkData "https://api.github.com/" "abc" "alice" "" false [])).configs = [config] ∧
      config.Owner = "alice" ∧ config.Individual = true :=
  ⟨by decide,
   owner_used_without_organization (envOf ("t", none))
    (mkData "https://api.github.com/" "abc" "alice" "" false []) "alice" ⟨0, some ⟨7⟩⟩
    (by decide) rfl rfl (by decide)⟩

/-- C4: when `token` is the empty string and `app_auth` is not set (the list
is empty or its first element is nil), the run goes straight to the `Config`
literal: its only call is `Config.Meta` on the constructed config, which has
`Anonymous` true and `Token` empty; no exchange is performed, and the only
error the run can return is the one `Config.Meta` returned (no field is
validated). -/
theorem anonymous_without_credentials (env : Env) (d : ResourceData) (hd : SchemaTyped d)
    (ht : d.Get "token" = .str "") (ha : AppAuthNotSet (d.Get "app_auth")) :
    ∃ config, (providerConfigure env d).calls = [.Meta config] ∧
      config.Anonymous = true ∧ config.Token = "" ∧
      (providerConfigure env d).exchanges = [] ∧
      (∀ e, (providerConfigure env d).result = .err e → (env.Meta config).2 = some e) := by
  obtain ⟨baseURL, token, owner, organization, insecure, appAuth, hb, -, ho, hg, hi, -, -⟩ :=
    (schemaTyped_iff d).1 hd
  have hrun := providerConfigure_static env d baseURL "" hb ht (appAuthSet_of_notSet _ ha)
  have hc := buildConfig_of_typed d baseURL "" owner organization insecure ho hg hi
  have hcalls := configureWith_calls_of_ok env d baseURL "" [] _ hc
  have hres := configureWith_result_of_ok env d baseURL "" [] _ hc
  rw [← hrun] at hcalls hres
  refine ⟨_, hcalls, by simp, rfl, ?_, ?_⟩
  · simp [Run.exchanges, hcalls]
  · intro e he
    rw [he] at hres
    revert hres
    cases (env.Meta _).2 with
    | some e0 =>
      intro hres
      simp only [Outcome.err.injEq] at hres
      rw [hres]
    | none =>
      intro hres
      revert hres
      cases (env.Meta _).1 <;> simp

/-- Scenario B: `token = ""`, no `app_auth`, `organization = "acme"` yields
Token "", Owner "acme", Individual false, Anonymous true. -/
theorem anonymous_without_credentials_witness :
    (providerConfigure (envOf ("t", none))
        (mkData "https://api.github.com/" "" "" "acme" false [])).calls =
      [.Meta { Token := "", Organization := "acme", BaseURL := "https://api.github.com/",
               Insecure := false, Owner := "acme", Individual := false, Anonymous := true }] ∧
    ∃ config, (providerConfigure (envOf ("t", none))
        (mkData "https://api.github.com/" "" "" "acme" false [])).calls = [.Meta config] ∧
      config.Anonymous = true ∧ config.Token = "" ∧
      (providerConfigure (envOf ("t", none))
        (mkData "https://api.github.com/" "" "" "acme" false [])).exchanges = [] ∧
      (∀ e, (providerConfigure (envOf ("t", none))
        (mkData "https://api.github.com/" "" "" "acme" false [])).result = .err e →
        ((envOf ("t", none)).Meta config).2 = some e) :=
  ⟨by decide,
   anonymous_without_credentials (envOf ("t", none))
    (mkData "https://api.github.com/" "" "" "acme" false [])
    (schemaTyped_mkData _ _ _ _ _ [] (by simp)) rfl (Or.inl rfl)⟩

/-- C5: every `Config` a run constructs has `Anonymous` equal to
`Token == ""`.  On the `app_auth` path, where an exchange was performed, the
token is the one the exchange returned, so `Anonymous` follows the exchanged
token; on the static path, where no exchange was performed, the token is the
static `token` input. -/
theorem anonymous_iff_token_empty (env : Env) (d : ResourceData) (config : Config)
    (h : config ∈ (providerConfigure env d).configs) :
    config.Anonymous = decide (config.Token = "") ∧
    (∀ baseURL appID appInstallationID appPemFile,
      Call.GenerateOAuthTokenFromApp baseURL appID appInstallationID appPemFile ∈
        (providerConfigure env d).calls →
      config.Token =
        (env.GenerateOAuthTokenFromApp baseURL appID appInstallationID appPemFile).1) ∧
    ((providerConfigure env d).exchanges = [] → d.Get "token" = .str config.Token) := by
  obtain ⟨baseURL, token, calls, -, hr, hc, hcalls⟩ := mem_configs_inv env d config h
  obtain ⟨owner, organization, insecure, -, -, -, hcfg⟩ :=
    buildConfig_ok_inv d baseURL token config hc
  have htok : config.Token = token := by rw [hcfg]
  refine ⟨?_, ?_, ?_⟩
  · rw [hcfg]
    by_cases h0 : token = "" <;> simp [h0]
  · intro b i n f hmem
    rw [hcalls] at hmem
    rcases hr with ⟨-, -, hr⟩ | ⟨_, _, _, _, _, -, -, -, -, hex, hr⟩
    · subst hr
      simp at hmem
    · subst hr
      simp only [List.singleton_append, List.mem_cons, Call.GenerateOAuthTokenFromApp.injEq,
        List.mem_singleton, reduceCtorEq, or_false, List.not_mem_nil] at hmem
      obtain ⟨rfl, rfl, rfl, rfl⟩ := hmem
      rw [htok, hex]
  · intro hex
    have hx := (configs_of_reachesConfig env d baseURL token calls config
      (providerConfigure env d).result hr).2
    rw [← hcalls, hex] at hx
    rcases hr with ⟨ht, -, -⟩ | ⟨_, _, _, _, _, -, -, -, -, -, hr⟩
    · rw [htok]; exact ht
    · subst hr
      simp at hx

/-- With a static token "abc" and an exchange that returns the empty token, the
constructed config is anonymous: the exchanged token decides. -/
theorem anonymous_iff_token_empty_witness :
    (providerConfigure (envOf ("", none))
        (mkData "u" "abc" "" "acme" false [appAuthOf "1" "2" "key.pem"])).configs =
      [{ Token := "", Organization := "acme", BaseURL := "u", Insecure := false,
         Owner := "acme", Individual := false, Anonymous := true }] ∧
    (true = decide (("" : String) = "") ∧
     (∀ baseURL appID appInstallationID appPemFile,
      Call.GenerateOAuthTokenFromApp baseURL appID appInstallationID appPemFile ∈
        (providerConfigure (envOf ("", none))
          (mkData "u" "abc" "" "acme" false [appAuthOf "1" "2" "key.pem"])).calls →
      "" = ((envOf ("", none)).GenerateOAuthTokenFromApp baseURL appID appInstallationID
        appPemFile).1) ∧
     ((providerConfigure (envOf ("", none))
        (mkData "u" "abc" "" "acme" false [appAuthOf "1" "2" "key.pem"])).exchanges = [] →
      (mkData "u" "abc" "" "acme" false [appAuthOf "1" "2" "key.pem"]).Get "token" =
        .str "")) :=
  ⟨by decide,
   anonymous_iff_token_empty (envOf ("", none))
    (mkData "u" "abc" "" "acme" false [appAuthOf "1" "2" "key.pem"])
    { Token := "", Organization := "acme", BaseURL := "u", Insecure := false,
      Owner := "acme", Individual := false, Anonymous := true } (by decide)⟩

/-- C6: when `app_auth` is present with its three fields non-empty strings and
`GenerateOAuthTokenFromApp` returns the error `e`, the run returns a nil result
with that same error; its only call is the exchange, so no `Config` is
constructed and `Config.Meta` is never invoked. -/
theorem exchange_error_is_returned (env : Env) (d : ResourceData) (baseURL token : String)
    (attr : List (String × Value)) (rest : List Value)
    (appID appInstallationID appPemFile : String) (e : GoError)
    (hb : d.Get "base_url" = .str baseURL) (ht : d.Get "token" = .str token)
    (ha : d.Get "app_auth" = .list (.map attr :: rest))
    (h1 : FieldSet attr "id" appID)
    (h2 : FieldSet attr "installation_id" appInstallationID)
    (h3 : FieldSet attr "pem_file" appPemFile)
    (he : (env.GenerateOAuthTokenFromApp baseURL appID appInstallationID appPemFile).2 = some e) :
    providerConfigure env d =
      ⟨.err e, [.GenerateOAuthTokenFromApp baseURL appID appInstallationID appPemFile]⟩ ∧
    (providerConfigure env d).configs = [] ∧
    (∀ config, Call.Meta config ∉ (providerConfigure env d).calls) := by
  have hset : appAuthSet (d.Get "app_auth") = some (.map attr) := by rw [ha]; rfl
  have hrun : providerConfigure env d =
      ⟨.err e, [.GenerateOAuthTokenFromApp baseURL appID appInstallationID appPemFile]⟩ := by
    rw [providerConfigure_appAuth env d baseURL token _ hb ht hset,
      appAuthBlock_exchange_error env baseURL appID appInstallationID appPemFile attr e
        h1 h2 h3 he]
  refine ⟨hrun, ?_, ?_⟩
  · rw [hrun]; rfl
  · intro config
    rw [hrun]
    simp

/-- Scenario D: a valid `app_auth` whose exchange fails. -/
theorem exchange_error_is_returned_witness :
    providerConfigure (envOf ("", some ⟨"exchange failed"⟩))
        (mkData "u" "" "" "acme" false [appAuthOf "1" "2" "key.pem"]) =
      ⟨.err ⟨"exchange failed"⟩, [.GenerateOAuthTokenFromApp "u" "1" "2" "key.pem"]⟩ ∧
    (providerConfigure (envOf ("", some ⟨"exchange failed"⟩))
        (mkData "u" "" "" "acme" false [appAuthOf "1" "2" "key.pem"])).configs = [] ∧
    (∀ config, Call.Meta config ∉ (providerConfigure (envOf ("", some ⟨"exchange failed"⟩))
        (mkData "u" "" "" "acme" false [appAuthOf "1" "2" "key.pem"])).calls) :=
  exchange_error_is_returned (envOf ("", some ⟨"exchange failed"⟩))
    (mkData "u" "" "" "acme" false [appAuthOf "1" "2" "key.pem"]) "u" ""
    [("id", .str "1"), ("installation_id", .str "2"), ("pem_file", .str "key.pem")] []
    "1" "2" "key.pem" ⟨"exchange failed"⟩ rfl rfl rfl
    ⟨rfl, by decide⟩ ⟨rfl, by decide⟩ ⟨rfl, by decide⟩ rfl

/-- C7: on a schema-typed input, when `app_auth` is present with its three
fields non-empty strings and the exchange on `(base_url, id, installation_id,
pem_file)` succeeds, the run performs exactly that one exchange and then
constructs a `Config` whose `Token` is the exchanged token, whatever the static
token is; when `app_auth` is not set, no exchange is performed and `Token` is
the static `token`. -/
theorem token_source (env : Env) (d : ResourceData) (baseURL token : String)
    (hd : SchemaTyped d) (hb : d.Get "base_url" = .str baseURL)
    (ht : d.Get "token" = .str token) :
    (∀ attr rest appID appInstallationID appPemFile,
      d.Get "app_auth" = .list (.map attr :: rest) →
      FieldSet attr "id" appID → FieldSet attr "installation_id" appInstallationID →
      FieldSet attr "pem_file" appPemFile →
      (env.GenerateOAuthTokenFromApp baseURL appID appInstallationID appPemFile).2 = none →
      ∃ config,
        (providerConfigure env d).calls =
          [.GenerateOAuthTokenFromApp baseURL appID appInstallationID appPemFile,
           .Meta config] ∧
        config.Token =
          (env.GenerateOAuthTokenFromApp baseURL appID appInstallationID appPemFile).1) ∧
    (AppAuthNotSet (d.Get "app_auth") →
      ∃ config, (providerConfigure env d).calls = [.Meta config] ∧ config.Token = token) := by
  obtain ⟨baseURL0, token0, owner, organization, insecure, appAuth, -, -, ho, hg, hi, -, -⟩ :=
    (schemaTyped_iff d).1 hd
  constructor
  · intro attr rest appID appInstallationID appPemFile ha h1 h2 h3 he
    have hset : appAuthSet (d.Get "app_auth") = some (.map attr) := by rw [ha]; rfl
    have hc := buildConfig_of_typed d baseURL
      (env.GenerateOAuthTokenFromApp baseURL appID appInstallationID appPemFile).1
      owner organization insecure ho hg hi
    have hcalls := configureWith_calls_of_ok env d baseURL _
      [.GenerateOAuthTokenFromApp baseURL appID appInstallationID appPemFile] _ hc
    rw [providerConfigure_appAuth env d baseURL token _ hb ht hset,
      appAuthBlock_exchange_ok env baseURL appID appInstallationID appPemFile attr h1 h2 h3 he]
    exact ⟨_, hcalls, rfl⟩
  · intro ha
    have hc := buildConfig_of_typed d baseURL token owner organization insecure ho hg hi
    have hcalls := configureWith_calls_of_ok env d baseURL _ [] _ hc
    rw [providerConfigure_static env d baseURL token hb ht (appAuthSet_of_notSet _ ha)]
    exact ⟨_, hcalls, rfl⟩

/-- A static token "abc" next to a valid `app_auth`: one exchange, and the
config carries the exchanged token "t". -/
theorem token_source_witness :
    (providerConfigure (envOf ("t", none))
        (mkData "u" "abc" "" "acme" false [appAuthOf "1" "2" "key.pem"])).calls =
      [.GenerateOAuthTokenFromApp "u" "1" "2" "key.pem",
       .Meta { Token := "t", Organization := "acme", BaseURL := "u", Insecure := false,
               Owner := "acme", Individual := false, Anonymous := false }] ∧
    ∃ config,
      (providerConfigure (envOf ("t", none))
        (mkData "u" "abc" "" "acme" false [appAuthOf "1" "2" "key.pem"])).calls =
        [.GenerateOAuthTokenFromApp "u" "1" "2" "key.pem", .Meta config] ∧
      config.Token = ((envOf ("t", none)).GenerateOAuthTokenFromApp "u" "1" "2" "key.pem").1 :=
  ⟨by decide,
   (token_source (envOf ("t", none))
    (mkData "u" "abc" "" "acme" false [appAuthOf "1" "2" "key.pem"]) "u" "abc"
    (schemaTyped_mkData _ _ _ _ _ _ (by simp [appAuthOf])) rfl rfl).1
    [("id", .str "1"), ("installation_id", .str "2"), ("pem_file", .str "key.pem")] []
    "1" "2" "key.pem" rfl ⟨rfl, by decide⟩ ⟨rfl, by decide⟩ ⟨rfl, by decide⟩ rfl⟩

/-- C8: a configuration with both a static token and `app_auth` set is
rejected.  For every input whose `token` is a non-empty string and whose
`app_auth` is present (a non-empty list with a non-nil first element), the
configuration entry point returns the conflict error of the schema rule
`app_auth` conflicts with `token`, without calling the exchange or
`Config.Meta`: no result is a success and no `Config` is constructed.  The rule
only bites when both are set: an input whose `token` is empty or whose
`app_auth` list is empty is handed to the configure function unchanged. -/
theorem token_and_app_auth_rejected (env : Env) (d : ResourceData) (token : String)
    (first : Value) (ht : d.Get "token" = .str token) (hne : token ≠ "")
    (ha : appAuthSet (d.Get "app_auth") = some first) :
    configure env d = ⟨.err (Errorf "app_auth: conflicts with token"), []⟩ ∧
    (∀ meta, (configure env d).result ≠ .ok meta) ∧
    (configure env d).configs = [] ∧ (configure env d).exchanges = [] ∧
    (∀ d0 : ResourceData, d0.Get "token" = .str "" ∨ d0.Get "app_auth" = .list [] →
      configure env d0 = providerConfigure env d0) := by
  obtain ⟨rest, hlist, -⟩ := appAuthSet_eq_some_inv _ _ ha
  have hv : validateConflictsWith ProviderSchema d =
      some (Errorf "app_auth: conflicts with token") := by
    simp [validateConflictsWith, ProviderSchema, List.findSome?, hlist, ht, Value.isSet, hne]
  have hrun : configure env d = ⟨.err (Errorf "app_auth: conflicts with token"), []⟩ := by
    simp only [configure, hv]
  refine ⟨hrun, ?_, ?_, ?_, ?_⟩
  · intro meta
    rw [hrun]
    simp
  · rw [hrun]; rfl
  · rw [hrun]; rfl
  · intro d0 h0
    have hv0 : validateConflictsWith ProviderSchema d0 = none := by
      rcases h0 with h0 | h0 <;>
        simp [validateConflictsWith, ProviderSchema, List.findSome?, h0, Value.isSet]
    simp only [configure, hv0]

/-- The static token "abc" together with a complete `app_auth` block is
refused before anything is called. -/
theorem token_and_app_auth_rejected_witness :
    (mkData "https://api.github.com/" "abc" "" "acme" false
        [appAuthOf "1" "2" "key.pem"]).Get "token" = .str "abc" ∧
    configure (envOf ("t", none))
        (mkData "https://api.github.com/" "abc" "" "acme" false
          [appAuthOf "1" "2" "key.pem"]) =
      ⟨.err ⟨"app_auth: conflicts with token"⟩, []⟩ ∧
    (∀ meta, (configure (envOf ("t", none))
        (mkData "https://api.github.com/" "abc" "" "acme" false
          [appAuthOf "1" "2" "key.pem"])).result ≠ .ok meta) :=
  ⟨rfl, by decide,
   (token_and_app_auth_rejected (envOf ("t", none))
    (mkData "https://api.github.com/" "abc" "" "acme" false [appAuthOf "1" "2" "key.pem"])
    "abc" (appAuthOf "1" "2" "key.pem") rfl (by decide) rfl).2.1⟩

/-- C9: on every input whose top-level values have their schema types, no type
assertion on the input and no index fails: the only line at which a run can
fault is 218, and only when `Config.Meta` has returned, with a nil error, a
value that is not a non-nil `*Owner`.  When `Config.Meta` keeps its contract the
run ends with `(meta, nil)` or `(nil, err)`.  In particular an `app_auth` block
with a missing, non-string or empty field yields the missing-field error. -/
theorem no_fault_on_schema_typed_input (env : Env) (d : ResourceData) (hd : SchemaTyped d) :
    (∀ line, (providerConfigure env d).result = .fault line →
      line = 218 ∧ ∃ config, Call.Meta config ∈ (providerConfigure env d).calls ∧
        (env.Meta config).2 = none ∧ ∀ o, (env.Meta config).1 ≠ .owner o) ∧
    (MetaReturnsOwner env →
      (∃ meta, (providerConfigure env d).result = .ok meta) ∨
      (∃ e, (providerConfigure env d).result = .err e)) ∧
    (∀ attr rest, d.Get "app_auth" = .list (.map attr :: rest) →
      (∃ field ∈ appAuthFields, FieldUnset attr field) →
      ∃ field ∈ appAuthFields, FieldUnset attr field ∧
        (providerConfigure env d).result = .err (fieldError field)) := by
  refine ⟨?_, ?_, ?_⟩
  · intro line hline
    rcases schemaTyped_run env d hd with ⟨e, he⟩ | ⟨baseURL, token, calls, config, hc, hrun⟩
    · rw [he] at hline
      simp at hline
    · have hcalls := configureWith_calls_of_ok env d baseURL token calls config hc
      rw [← hrun] at hcalls
      rcases configureWith_result_cases env d baseURL token calls config hc with
        ⟨e, -, h⟩ | ⟨o, -, h⟩ | ⟨h2, h1, h⟩ <;> rw [← hrun, hline] at h
      · simp at h
      · simp at h
      · simp only [Outcome.fault.injEq] at h
        exact ⟨h, config, by simp [hcalls], h2, h1⟩
  · intro hm
    rcases schemaTyped_run env d hd with ⟨e, he⟩ | ⟨baseURL, token, calls, config, hc, hrun⟩
    · exact Or.inr ⟨e, he⟩
    · rcases configureWith_result_cases env d baseURL token calls config hc with
        ⟨e, -, h⟩ | ⟨o, -, h⟩ | ⟨h2, h1, -⟩
      · rw [← hrun] at h
        exact Or.inr ⟨e, h⟩
      · rw [← hrun] at h
        exact Or.inl ⟨_, h⟩
      · obtain ⟨o, ho⟩ := hm config h2
        exact absurd ho (h1 o)
  · intro attr rest ha hbad
    obtain ⟨baseURL, token, -, -, -, -, hb, ht, -⟩ := (schemaTyped_iff d).1 hd
    obtain ⟨field, hmem, hu, hrun⟩ :=
      field_error_of_unset env d baseURL token attr rest hb ht ha hbad
    exact ⟨field, hmem, hu, by rw [hrun]⟩

/-- An `app_auth` block whose `id` is an integer and whose `pem_file` is absent:
the run returns the error for `id`. -/
theorem no_fault_on_schema_typed_input_witness :
    (providerConfigure (envOf ("t", none))
        (mkData "u" "" "" "" false [.map [("id", .int 7), ("installation_id", .str "2")]])).result =
      .err (fieldError "id") ∧
    ((∀ line, (providerConfigure (envOf ("t", none))
        (mkData "u" "" "" "" false
          [.map [("id", .int 7), ("installation_id", .str "2")]])).result ≠ .fault line) ∧
     ((∃ meta, (providerConfigure (envOf ("t", none))
        (mkData "u" "" "" "" false
          [.map [("id", .int 7), ("installation_id", .str "2")]])).result = .ok meta) ∨
      (∃ e, (providerConfigure (envOf ("t", none))
        (mkData "u" "" "" "" false
          [.map [("id", .int 7), ("installation_id", .str "2")]])).result = .err e))) :=
  ⟨by decide,
   fun line hline => by
     have h := ((no_fault_on_schema_typed_input (envOf ("t", none))
       (mkData "u" "" "" "" false [.map [("id", .int 7), ("installation_id", .str "2")]])
       (schemaTyped_mkData _ _ _ _ _ _ (by simp))).1 line hline).2
     obtain ⟨config, -, -, hno⟩ := h
     exact hno ⟨0, none⟩ rfl,
   (no_fault_on_schema_typed_input (envOf ("t", none))
     (mkData "u" "" "" "" false [.map [("id", .int 7), ("installation_id", .str "2")]])
     (schemaTyped_mkData _ _ _ _ _ _ (by simp))).2.1
     (fun _ _ => ⟨⟨0, none⟩, rfl⟩)⟩

/-- C10: for an `app_auth` block, the fields are checked in the order `id`,
`installation_id`, `pem_file` and the run returns the single error of the first
unset one: the error names `installation_id` only if `id` is a non-empty
string, and names `pem_file` only if both `id` and `installation_id` are
non-empty strings. -/
theorem first_unset_field_is_reported (env : Env) (d : ResourceData) (baseURL token : String)
    (attr : List (String × Value)) (rest : List Value)
    (hb : d.Get "base_url" = .str baseURL) (ht : d.Get "token" = .str token)
    (ha : d.Get "app_auth" = .list (.map attr :: rest)) :
    (FieldUnset attr "id" → providerConfigure env d = ⟨.err (fieldError "id"), []⟩) ∧
    ((∃ s, FieldSet attr "id" s) → FieldUnset attr "installation_id" →
      providerConfigure env d = ⟨.err (fieldError "installation_id"), []⟩) ∧
    ((∃ s, FieldSet attr "id" s) → (∃ s, FieldSet attr "installation_id" s) →
      FieldUnset attr "pem_file" →
      providerConfigure env d = ⟨.err (fieldError "pem_file"), []⟩) ∧
    ((providerConfigure env d).result = .err (fieldError "installation_id") →
      ∃ s, FieldSet attr "id" s) ∧
    ((providerConfigure env d).result = .err (fieldError "pem_file") →
      (∃ s, FieldSet attr "id" s) ∧ ∃ s, FieldSet attr "installation_id" s) := by
  have hset : appAuthSet (d.Get "app_auth") = some (.map attr) := by rw [ha]; rfl
  have hrun := providerConfigure_appAuth env d baseURL token _ hb ht hset
  have hid : FieldUnset attr "id" → providerConfigure env d = ⟨.err (fieldError "id"), []⟩ := by
    intro hu
    rw [hrun, appAuthBlock_unset_id env baseURL attr hu]
  have hinst : (∃ s, FieldSet attr "id" s) → FieldUnset attr "installation_id" →
      providerConfigure env d = ⟨.err (fieldError "installation_id"), []⟩ := by
    rintro ⟨s, h1⟩ hu
    rw [hrun, appAuthBlock_unset_installation_id env baseURL s attr h1 hu]
  refine ⟨hid, hinst, ?_, ?_, ?_⟩
  · rintro ⟨s1, h1⟩ ⟨s2, h2⟩ hu
    rw [hrun, appAuthBlock_unset_pem_file env baseURL s1 s2 attr h1 h2 hu]
  · intro hres
    rcases fieldUnset_or_fieldSet attr "id" with hu | hs
    · rw [hid hu] at hres
      exact absurd hres (by decide)
    · exact hs
  · intro hres
    rcases fieldUnset_or_fieldSet attr "id" with hu | hs
    · rw [hid hu] at hres
      exact absurd hres (by decide)
    · rcases fieldUnset_or_fieldSet attr "installation_id" with hu2 | hs2
      · rw [hinst hs hu2] at hres
        exact absurd hres (by decide)
      · exact ⟨hs, hs2⟩

/-- With `id` and `pem_file` both empty the error names `id`; with only
`installation_id` and `pem_file` empty it names `installation_id`. -/
theorem first_unset_field_is_reported_witness :
    providerConfigure (envOf ("t", none))
        (mkData "u" "" "" "" false [appAuthOf "" "2" ""]) =
      ⟨.err ⟨"app_auth.id must be set and contain a non-empty value"⟩, []⟩ ∧
    providerConfigure (envOf ("t", none))
        (mkData "u" "" "" "" false [appAuthOf "" "2" ""]) =
      ⟨.err (fieldError "id"), []⟩ :=
  ⟨by decide,
   (first_unset_field_is_reported (envOf ("t", none))
    (mkData "u" "" "" "" false [appAuthOf "" "2" ""]) "u" ""
    [("id", .str ""), ("installation_id", .str "2"), ("pem_file", .str "")] []
    rfl rfl rfl).1 (Or.inr (Or.inr rfl))⟩

end Github
